import Mathlib

/-!
Shallow embedding of `django_translate_gettext/services/translators.py`
(the catalog block parser, single-line translator, multi-line parser and
rewriter, and the catalog driver).  Strings are modelled as `List Char`;
Python slicing, `str.split`, `str.strip`, `re.findall`/`re.sub` for the
concrete patterns used by the module, and the replacement-template escape
processing of `re.sub` are embedded explicitly.  Fallible Python code
(IndexError, bad replacement escapes, a raising translation backend) is
modelled with `Option`/`Except`.
-/

set_option maxRecDepth 10000

abbrev Str := List Char

/-- Python slice index normalization: a negative index counts from the end
(clamped at 0), a non-negative one is clamped at the length. -/
def pyIdx (n : Nat) (i : Int) : Nat :=
  if i < 0 then ((n : Int) + i).toNat else min i.toNat n

/-- Python slice `s[a:b]` (step 1). -/
def pySlice (s : Str) (a b : Int) : Str :=
  let a' := pyIdx s.length a
  let b' := pyIdx s.length b
  (s.drop a').take (b' - a')

/-- Python `str` whitespace (the characters stripped by `str.strip` and
separating tokens for `str.split()`). -/
def isPySpace (c : Char) : Bool :=
  c = ' ' || c = '\t' || c = '\n' || c = '\r' || c = '\x0b' || c = '\x0c'

/-- Python `str.strip()`. -/
def pyStrip (s : Str) : Str :=
  ((s.dropWhile isPySpace).reverse.dropWhile isPySpace).reverse

/-- Helper for `pySplitWs`: accumulates the current token (reversed). -/
def pySplitWsAux (cur : Str) : Str → List Str
  | [] => if cur = [] then [] else [cur.reverse]
  | c :: rest =>
    if isPySpace c then
      if cur = [] then pySplitWsAux [] rest else cur.reverse :: pySplitWsAux [] rest
    else pySplitWsAux (c :: cur) rest

/-- Python `str.split()` with no argument: split on whitespace runs,
dropping empty tokens. -/
def pySplitWs (s : Str) : List Str := pySplitWsAux [] s

/-- Fuelled worker for `pySplitOn`: leftmost non-overlapping occurrences
of the separator, empty parts kept.  Each step consumes at least one
character, so `s.length + 1` fuel always suffices. -/
def pySplitOnF (sep : Str) : Nat → Str → List Str
  | 0, s => [s]
  | fuel + 1, s =>
    if sep ≠ [] && sep.isPrefixOf s then
      match pySplitOnF sep fuel (s.drop sep.length) with
      | [] => [[]]
      | p :: ps => [] :: p :: ps
    else
      match s with
      | [] => [[]]
      | c :: rest =>
        match pySplitOnF sep fuel rest with
        | [] => [[c]]
        | p :: ps => (c :: p) :: ps

/-- Python `str.split(sep)` for a non-empty separator. -/
def pySplitOn (s sep : Str) : List Str := pySplitOnF sep (s.length + 1) s

/-! ## `MultilineText`: the Multi-Line Block Parser -/

/-- Embeds `MultilineText.get_indentation_depth`.  The source reads
`string[0]` (IndexError on an empty string, hence `Option`), then rebinds
`reduced` from `string` — the first conditional's result is discarded —
keeping `string[:-2]` when the last character is a quote or apostrophe,
and returns `len(reduced) + 1`. -/
def get_indentation_depth (s : Str) : Option Nat :=
  match s with
  | [] => none
  | _ =>
    some ((if s.getLast? = some '"' || s.getLast? = some '\'' then pySlice s 0 (-2) else s).length + 1)

/-- The `check_strings` list of `get_content`. -/
def check_strings : List Str := ["msgid".data, [], "msgstr".data, "\\n".data]

/-- The `check_punctuation` membership test of `get_content`, applied to
`s.strip()`. -/
def check_punct (s : Str) : Bool :=
  let t := pyStrip s
  t = [] || t = "\"".data || t = ['\''] || t = "\"\"".data || t = ['\'', '\'']

/-- The per-element guard of `get_content`'s outer loop: no token of
`line.split()` is in `check_strings`, and the token list is non-empty. -/
def lineQualifies (g : Str) : Bool :=
  let ls := pySplitWs g
  !(check_strings.any (fun v => ls.contains v)) && !ls.isEmpty

/-- The `'"\n"'` separator (quote, newline, quote) used by `get_content`. -/
def sepQNQ : Str := ['"', '\n', '"']

/-- The inner fragment loop of `get_content`: punctuation-only fragments
are discarded, and while `self.indentation_depth` is falsy (None or 0,
both encoded as 0 here) it is recomputed from the discarded fragment —
which raises IndexError (`none`) on an empty fragment.  Other fragments
are collected; the final join is returned together with the depth. -/
def fragLoop (depth : Nat) (cleanedRev : List Str) : List Str → Option (Nat × Str)
  | [] => some (depth, (cleanedRev.reverse).foldl (fun a b => a ++ b) [])
  | s :: rest =>
    if check_punct s then
      if depth = 0 then
        match get_indentation_depth s with
        | none => none
        | some d => fragLoop d cleanedRev rest
      else fragLoop depth cleanedRev rest
    else fragLoop depth (s :: cleanedRev) rest

/-- The fragment list `stripped.split('"\n"')` a regex group is cut into
by `get_content`: the group loses its first and last character, is
stripped, and is split on the quote–newline–quote separator. -/
def fragsOf (g : Str) : List Str :=
  pySplitOn (pyStrip (pySlice g 1 (-1))) sepQNQ

/-- One iteration of `get_content`'s outer loop over the regex groups,
threading `(indentation_depth, mightBeContent)`.  The trailing-marker
conditional from the source compares the three-character slice
`cleaned[-3:]` with the two-character string `'\n'` (backslash, n) and,
when it matches, assigns that same slice back — both quirks are kept. -/
def lineStep (st : Nat × List Str) (g : Str) : Option (Nat × List Str) :=
  if lineQualifies g then
    match fragLoop st.1 [] (fragsOf g) with
    | none => none
    | some (d, cleaned0) =>
      let cleaned := if pySlice cleaned0 (-3) cleaned0.length = "\\n".data
        then pySlice cleaned0 (-3) cleaned0.length else cleaned0
      some (d, if cleaned = [] then st.2 else st.2 ++ [cleaned])
  else some st

/-- Embeds `MultilineText.get_content`, acting on the stored regex groups.
Returns the extracted `content` and the recorded `indentation_depth`
(`None` and the final `0` default are both encoded as 0). -/
def get_content (regex_block : List Str) : Option (Str × Nat) :=
  match List.foldlM lineStep ((0 : Nat), ([] : List Str)) regex_block with
  | none => none
  | some (d, mbc) => some (List.intercalate [' '] mbc, d)

/-! ## `get_regex_block`: the recognition regex

The pattern is `(msgid \"(.*?)\"\n\"\\n\"\n)((\".*\"\n)+)(msgstr)` and
`re.findall(...)[0]` takes the leftmost match.  `.` never matches a
newline; the lazy `(.*?)` therefore runs to the first quote that is
followed by newline, `"\n"` (quote, backslash, n, quote) and newline —
no later anchor can exist, since extending the lazy group would have to
cross that newline.  Each repetition of `(\".*\"\n)` consumes one full
line that starts and ends with a quote; backtracking out of the greedy
repetition cannot help, because `msgstr` never starts with a quote. -/

/-- Scans for the lazy `(.*?)` group followed by the literal
`"` newline `"` backslash `n` `"` newline anchor; returns the group and
the rest after the anchor. -/
def lazyScan (acc : Str) : Str → Option (Str × Str)
  | [] => none
  | c :: rest =>
    if c = '\n' then none
    else if c = '"' && ['\n', '"', '\\', 'n', '"', '\n'].isPrefixOf rest then
      some (acc.reverse, rest.drop 6)
    else lazyScan (c :: acc) rest

/-- One repetition of `(\".*\"\n)`: a full line that starts and ends with
a quote (length at least 2) followed by a real newline.  Returns the
consumed text (line plus newline) and the rest. -/
def lineRep (s : Str) : Option (Str × Str) :=
  let line := s.takeWhile (fun c => c ≠ '\n')
  if 2 ≤ line.length && line.head? = some '"' && line.getLast? = some '"'
      && (s.drop line.length).head? = some '\n'
  then some (line ++ ['\n'], s.drop (line.length + 1)) else none

/-- Greedy repetition of `lineRep`; returns (group 3, group 4, rest):
all consumed text, the last repetition, and the remainder.  Fuelled; the
wrappers always pass enough fuel since every repetition consumes at
least three characters. -/
def consumeReps : Nat → Str → Str × Str × Str
  | 0, s => ([], [], s)
  | fuel + 1, s =>
    match lineRep s with
    | none => ([], [], s)
    | some (chunk, rest) =>
      match consumeReps fuel rest with
      | ([], _, _) => (chunk, chunk, rest)
      | (g3, g4, rest') => (chunk ++ g3, g4, rest')

/-- Tries the whole pattern anchored at the start of `s`; returns the five
groups of a match as a list. -/
def matchMultiAt (s : Str) : Option (List Str) :=
  if ("msgid \"".data).isPrefixOf s then
    match lazyScan [] (s.drop 7) with
    | none => none
    | some (g2, rest2) =>
      match consumeReps (rest2.length + 1) rest2 with
      | ([], _, _) => none
      | (g3, g4, rest3) =>
        if ("msgstr".data).isPrefixOf rest3 then
          some [("msgid \"".data) ++ g2 ++ ("\"\n\"\\n\"\n".data), g2, g3, g4, "msgstr".data]
        else none
  else none

/-- Leftmost match of the multi-line pattern. -/
def findFirstMatch : Str → Option (List Str)
  | [] => matchMultiAt []
  | c :: rest =>
    match matchMultiAt (c :: rest) with
    | some g => some g
    | none => findFirstMatch rest

/-- Embeds `MultilineText.get_regex_block`; the empty tuple returned on
`IndexError` is encoded as `[]`. -/
def get_regex_block (block : Str) : List Str :=
  (findFirstMatch block).getD []

/-- Embeds the `MultilineText` instance state used by the pipeline.  (In
`__init__`, `regex_block != ''` is always true — a tuple never equals a
string — so the stored tuple is whatever the caller passed; the driver
always goes through `try_create_multline`, which passes the match.) -/
structure MultilineText where
  block : Str
  regex_block : List Str

/-- Embeds `MultilineText.try_create_multline`. -/
def try_create_multline (block : Str) : Option MultilineText :=
  let regex := get_regex_block block
  if regex.length > 0 then some ⟨block, regex⟩ else none

/-! ## `re` helpers for the `msgstr`/`msgid` field patterns -/

/-- Match of `LIT(.*?)"` at the start of `s`, where `lit` is the literal
prefix ending in an opening quote (`msgstr "` or `msgid "`): the lazy
group runs to the first quote, and fails if a newline comes first.
Returns the group and the rest after the closing quote. -/
def quotedFieldMatchAt (lit : Str) (s : Str) : Option (Str × Str) :=
  if lit.isPrefixOf s then
    let rest := s.drop lit.length
    let inner := rest.takeWhile (fun c => c ≠ '"' && c ≠ '\n')
    if (rest.drop inner.length).head? = some '"' then
      some (inner, rest.drop (inner.length + 1))
    else none
  else none

/-- Fuelled scan for `re.findall` of `LIT(.*?)"`: group 1 of every
non-overlapping leftmost match. -/
def findallQuotedF (lit : Str) : Nat → Str → List Str
  | 0, _ => []
  | fuel + 1, s =>
    match quotedFieldMatchAt lit s with
    | some (inner, after) => inner :: findallQuotedF lit fuel after
    | none =>
      match s with
      | [] => []
      | _ :: rest => findallQuotedF lit fuel rest

/-- Embeds `re.findall(r'LIT(.*?)"', s)` (each step consumes at least
one character, so `s.length + 1` fuel always suffices). -/
def findallQ (lit s : Str) : List Str := findallQuotedF lit (s.length + 1) s

/-- Embeds the escape processing `re.sub` applies to a replacement
template: `\\` yields a backslash, `\n`/`\t`/`\r`/`\a`/`\b`/`\f`/`\v`
yield control characters, `\1` is a reference to group 1 (the only group
of the patterns used here), any other escaped ASCII letter or digit is a
bad escape (error), a trailing backslash is a bad escape, and an escaped
non-alphanumeric character is left alone. -/
def processRepl (g1 : Str) : Str → Option Str
  | [] => some []
  | '\\' :: [] => none
  | '\\' :: c :: rest =>
    if c = '\\' then (processRepl g1 rest).map (fun t => '\\' :: t)
    else if c = 'n' then (processRepl g1 rest).map (fun t => '\n' :: t)
    else if c = 't' then (processRepl g1 rest).map (fun t => '\t' :: t)
    else if c = 'r' then (processRepl g1 rest).map (fun t => '\r' :: t)
    else if c = 'a' then (processRepl g1 rest).map (fun t => '\x07' :: t)
    else if c = 'b' then (processRepl g1 rest).map (fun t => '\x08' :: t)
    else if c = 'f' then (processRepl g1 rest).map (fun t => '\x0c' :: t)
    else if c = 'v' then (processRepl g1 rest).map (fun t => '\x0b' :: t)
    else if c = '0' then (processRepl g1 rest).map (fun t => '\x00' :: t)
    else if c = '1' then (processRepl g1 rest).map (fun t => g1 ++ t)
    else if c.isAlpha || c.isDigit then none
    else (processRepl g1 rest).map (fun t => '\\' :: c :: t)
  | c :: rest => (processRepl g1 rest).map (fun t => c :: t)

/-- Fuelled scan for `re.sub` over the `LIT(.*?)"` field pattern: every
non-overlapping leftmost match is replaced by `repl` applied to group 1
(the processed template). -/
def reSubQuotedF (lit : Str) (repl : Str → Option Str) : Nat → Str → Option Str
  | 0, s => some s
  | fuel + 1, s =>
    match quotedFieldMatchAt lit s with
    | some (inner, after) =>
      match repl inner, reSubQuotedF lit repl fuel after with
      | some r, some tail => some (r ++ tail)
      | _, _ => none
    | none =>
      match s with
      | [] => some []
      | c :: rest => (reSubQuotedF lit repl fuel rest).map (fun t => c :: t)

/-- Embeds `re.sub(r'LIT(.*?)"', template, s)`, with `repl` the
escape-processed template as a function of group 1. -/
def reSubQ (lit : Str) (repl : Str → Option Str) (s : Str) : Option Str :=
  reSubQuotedF lit repl (s.length + 1) s

/-! ## The Multi-Line Block Rewriter -/

/-- Embeds the chunking `while` loop of `translate_multi_line_block`,
with the cursor `i` a Python integer: the first iteration advances it by
`80 - depth`, which is negative for depths above 80, and the slices
normalize negative indices just as Python does.  The first chunk is
indented and shortened by the indentation depth via a slice whose end
index may be negative, an empty chunk is skipped, and a chunk ending in
backslash-n loses those two characters.  Fuelled, one unit per loop
iteration; `none` is fuel exhaustion.  After the first iteration the
cursor grows by exactly 80 per iteration, so the fuel the wrappers pass
(`length + depth + 2`) covers every terminating run; the source loop
fails to terminate exactly when the cursor revisits 0 forever, at
depths that are positive multiples of 80 (`i += 80 - depth` at depth 80
keeps `i = 0`), and only those runs exhaust the fuel. -/
def wrapLoopF (t : Str) (d : Nat) : Nat → Int → Option (List Str)
  | 0, _ => none
  | fuel + 1, i =>
    if i < (t.length : Int) then
      let j : Int := min (80 + i) (t.length : Int)
      if i = 0 then
        (wrapLoopF t d fuel (i + 80 - (d : Int))).map
          (fun ls =>
            ('"' :: (List.replicate d ' ' ++ pySlice t 0 (j - (d : Int)) ++ ['"'])) :: ls)
      else
        let chunk := pySlice t i j
        if chunk = [] then wrapLoopF t d fuel (i + 80)
        else if pySlice chunk (-2) chunk.length = "\\n".data then
          (wrapLoopF t d fuel (i + 80)).map
            (fun ls => ('"' :: (pySlice chunk 0 (-2) ++ ['"'])) :: ls)
        else (wrapLoopF t d fuel (i + 80)).map (fun ls => ('"' :: (chunk ++ ['"'])) :: ls)
    else some []

/-- The emitted wrapped lines for a translated text, before the terminal
marker rewrite; `none` exactly when the source loop diverges (depth a
positive multiple of 80). -/
def mlbRawLines (t : Str) (d : Nat) : Option (List Str) :=
  wrapLoopF t d (t.length + d + 2) 0

/-- The emitted wrapped lines after the final `lines[-1]` rewrite, which
drops the closing quote of the last line and appends backslash,
backslash, `n`, quote.  `lines[-1]` on an empty list raises IndexError,
hence `none`; a diverging chunk loop is `none` as well. -/
def mlbLines (t : Str) (d : Nat) : Option (List Str) :=
  match mlbRawLines t d with
  | none => none
  | some lines =>
    match lines.getLast? with
    | none => none
    | some last => some (lines.dropLast ++ [pySlice last 0 (-1) ++ "\\\\n\"".data])

/-- Embeds `PoFileTranslator.translate_multi_line_block`.  The backend's
raw result loses its last two characters unconditionally; the wrapped
lines are assembled between an empty-quote line, a `"\\n"` line and two
indent-only lines, and the joined text is substituted (with `re.sub`
replacement-escape processing) for the `msgstr "..."` field of the
block.  Every indentation depth is handled as the source handles it; a
depth that is a positive multiple of 80 makes the source loop spin
forever (the cursor keeps returning to 0) and is `none` here. -/
def translate_multi_line_block (backend : Str → Option Str) (content : Str) (depth : Nat)
    (block : Str) : Option Str := do
  let raw ← backend content
  let translated := pySlice raw 0 (-2)
  let indent : Str := List.replicate depth ' '
  let lines ← mlbLines translated depth
  let replaceList := ["\"\"".data, "\"\\\\n\"".data, '"' :: (indent ++ ['"'])]
    ++ lines ++ ['"' :: (indent ++ ['"'])]
  let template := ("msgstr ".data) ++ List.intercalate ['\n'] replaceList
  reSubQ ("msgstr \"".data) (fun g1 => processRepl g1 template) block

/-! ## The Single-Line Block Translator and the Catalog Driver -/

/-- Embeds `PoFileTranslator.translate_block`.  A first non-empty
`msgstr` group skips translation and returns the block unchanged.
Otherwise `msgid[0]` is read (IndexError on an empty list), the backend
is called, and the result is substituted into the `msgstr` field.  The
substitution pattern there is `msgstr "(.*?)*"`, which consumes the same
text as `msgstr "(.*?)"`; its degenerate starred group capture is passed
as the empty string (no template used here references group 1 unless the
backend output itself contains an escape). -/
def translate_block (backend : Str → Option Str) (block : Str) (msgid : List Str) :
    Option Str :=
  let msgstr := findallQ ("msgstr \"".data) block
  if msgstr.headD [] ≠ [] then some block
  else do
    let mid ← msgid.head?
    let translated ← backend mid
    let template := ("msgstr \"".data) ++ translated ++ ['"']
    reSubQ ("msgstr \"".data) (fun _ => processRepl [] template) block

/-- Embeds `PoFileTranslator.process_first_block`: the block's last two
lines are taken as the id/target pair (IndexError when there are fewer
than two lines), and `translate_block` rewrites the last line. -/
def process_first_block (backend : Str → Option Str) (block : Str) : Option Str :=
  let parts := pySplitOn block ['\n']
  match parts.dropLast.getLast?, parts.getLast? with
  | some raw_msgid, some raw_msgstr => do
    let msgid := findallQ ("msgid \"".data) raw_msgid
    let newLast ← translate_block backend raw_msgstr msgid
    some (List.intercalate ['\n'] (parts.dropLast ++ [newLast]))
  | _, _ => none

/-- Per-block dispatch of `translate_locale_path`'s loop body. -/
def processBlock (backend : Str → Option Str) (block : Str) : Option Str :=
  match findallQ ("msgid \"".data) block with
  | [m] =>
    if m = [] then
      match try_create_multline block with
      | some mt => do
        let cd ← get_content mt.regex_block
        translate_multi_line_block backend cd.1 cd.2 mt.block
      | none => translate_block backend block [m]
    else translate_block backend block [m]
  | _ => process_first_block backend block

/-- The driver loop: empty blocks are skipped, the others are processed
in order; the first failure aborts the whole run. -/
def processBlocks (backend : Str → Option Str) : List Str → Option (List Str)
  | [] => some []
  | b :: rest =>
    if b = [] then processBlocks backend rest
    else do
      let r ← processBlock backend b
      let rs ← processBlocks backend rest
      pure (r :: rs)

/-- Embeds `PoFileTranslator.translate_locale_path` on the catalog file's
text: split on blank lines, process every non-empty block, and rejoin.
The returned string is what gets written back; `none` means an error
propagated before the write. -/
def translate_locale_path (backend : Str → Option Str) (fileContent : Str) : Option Str :=
  (processBlocks backend (pySplitOn fileContent "\n\n".data)).map
    (List.intercalate ("\n\n".data))

/-- The catalog file on disk after a run of `translate_locale_path`: the
write happens only on success, so a failing run leaves the text as it
was. -/
def translate_locale_path_disk (backend : Str → Option Str) (disk : Str) : Str :=
  match translate_locale_path backend disk with
  | some c => c
  | none => disk

/-! ## Translator construction (`PoFileTranslator.__init__`) -/

/-- Modelled from the spec: the external translation backend of §6 —
`translate(text, targetLanguage)` plus a constructor that fails with
`UnsupportedLanguageError` for an unsupported language code (the
concrete service, deep_translator's `GoogleTranslator`, is out of
scope).  Per-call failures are the `Option` in `translateText`. -/
structure Backend where
  supported : Str → Bool
  translateText : Str → Str → Option Str

/-- Modelled from the spec: constructing the backend translator object
bound to one target language; fails for unsupported codes. -/
def newTranslator (b : Backend) (lang : Str) : Except Unit (Str → Option Str) :=
  if b.supported lang then Except.ok (b.translateText lang) else Except.error ()

/-- The error raised by `PoFileTranslator.__init__` when the backend
constructor reports an unsupported language. -/
inductive TranslatorError where
  | languageNotSupported (lang : Str)
deriving DecidableEq

/-- The constructed translator state: the language code and the bound
per-call translation function. -/
structure PoFileTranslator where
  lang_code : Str
  translator : Str → Option Str

/-- Embeds `PoFileTranslator.__init__`: the backend translator is built
in the constructor, and `LanguageNotSupportedException` is re-raised
there as a `TranslatorError`. -/
def PoFileTranslator.init (b : Backend) (lang : Str) : Except TranslatorError PoFileTranslator :=
  match newTranslator b lang with
  | Except.ok t => Except.ok ⟨lang, t⟩
  | Except.error _ => Except.error (TranslatorError.languageNotSupported lang)

/-! ## Specification-side descriptions and concrete example data -/

/-- The discarded (pure punctuation/whitespace) fragments of a regex
group list, in the order `get_content` scans them: only groups passing
the outer-loop guard contribute, and only their fragments whose
stripped form is in `check_punctuation`. -/
def qualFrags (rb : List Str) : List Str :=
  (rb.filter (fun g => lineQualifies g)).flatMap
    (fun g => (fragsOf g).filter (fun s => check_punct s))

/-- Scan of the discarded fragments for the recorded indentation depth:
the value `get_indentation_depth` gives for the first fragment for which
it is non-zero (a recorded zero stays falsy and is recomputed), `0` when
the fragments run out, and an error when a fragment is empty while the
depth is still unset. -/
def firstDepth : List Str → Option Nat
  | [] => some 0
  | f :: rest =>
    match get_indentation_depth f with
    | none => none
    | some d => if d = 0 then firstDepth rest else some d

/-- The identity translation backend (used to state format stability). -/
def idBackend : Str → Option Str := fun s => some s

/-- One pass of the driver's multi-line pipeline on a recognized block:
recognition, content extraction, then the rewrite. -/
def rewriteOnce (backend : Str → Option Str) (b : Str) : Option Str :=
  match try_create_multline b with
  | some mt =>
    match get_content mt.regex_block with
    | some (c, d) => translate_multi_line_block backend c d mt.block
    | none => none
  | none => none

/-- A canonical multi-line block in the exact shape this module's
toolchain emits: `msgid ""`, the `"\n"` marker line, one wrapped
content line, an indent-only line, and an untranslated `msgstr ""`. -/
def exampleBlock : Str :=
  "msgid \"\"\n\"\\n\"\n\"    Hello there friend\\n\"\n\"    \"\nmsgstr \"\"".data

/-- The block produced by one identity-backend rewrite of
`exampleBlock` (checked below). -/
def exB1 : Str :=
  ("msgid \"\"\n\"\\n\"\n\"    Hello there friend\\n\"\n\"    \"\nmsgstr \"\"\n"
    ++ "\"\\n\"\n\"    \"\n\"    Hello there fr\\n\"\n\"    \"").data

/-- The text a second identity-backend rewrite appends after `exB1`
(checked below): a duplicate of the emitted continuation lines. -/
def exTail : Str :=
  "\n\"\\n\"\n\"    \"\n\"    Hello there fr\\n\"\n\"    \"".data

/-- A two-language demonstration backend for the construction-time
theorems. -/
def demoBackend : Backend :=
  ⟨fun lang => lang == "fr".data, fun _ text => some text⟩

/-! ## Slice arithmetic lemmas -/

theorem pyIdx_ofNat (n a : Nat) : pyIdx n (a : Int) = min a n := by
  simp [pyIdx]

theorem pySlice_nat (s : Str) (a b : Nat) :
    pySlice s a b = (s.drop (min a s.length)).take (min b s.length - min a s.length) := by
  simp [pySlice, pyIdx_ofNat]

theorem pySlice_length (s : Str) (a b : Nat) (hab : a ≤ b) (hb : b ≤ s.length) :
    (pySlice s a b).length = b - a := by
  rw [pySlice_nat]
  have ha : min a s.length = a := Nat.min_eq_left (le_trans hab hb)
  have hb' : min b s.length = b := Nat.min_eq_left hb
  rw [ha, hb']
  simp [List.length_take, List.length_drop]
  omega

theorem pySlice_zero_neg (s : Str) (k : Int) (hk : k < 0) :
    pySlice s 0 k = s.take ((s.length + k).toNat) := by
  have h0 : pyIdx s.length 0 = 0 := by simp [pyIdx]
  have hk' : pyIdx s.length k = ((s.length : Int) + k).toNat := by
    simp [pyIdx, if_pos hk]
  simp [pySlice, h0, hk']

theorem pySlice_dropLast2 (s : Str) (a b : Char) : pySlice (s ++ [a, b]) 0 (-2) = s := by
  rw [pySlice_zero_neg _ _ (by omega)]
  have : ((s ++ [a, b]).length + (-2 : Int)).toNat = s.length := by
    simp [List.length_append]
  rw [this]
  exact List.take_left s [a, b]

theorem pySlice_zero_neg_length (s : Str) (k : Nat) (hk : 0 < k) :
    (pySlice s 0 (-(k : Int))).length = s.length - k := by
  rw [pySlice_zero_neg _ _ (by omega)]
  simp [List.length_take]
  omega

/-! ## Width bounds for the emitted wrapped lines (C3) -/

theorem pySlice_length_le (s : Str) (i j : Int) (hi : 0 ≤ i) (hj : 0 ≤ j) :
    (pySlice s i j).length ≤ (j - i).toNat := by
  simp only [pySlice, pyIdx, if_neg (by omega : ¬ i < 0), if_neg (by omega : ¬ j < 0)]
  simp only [List.length_take, List.length_drop]
  omega

theorem wrapLoopF_bound (t : Str) (d : Nat) :
    ∀ (fuel : Nat) (i : Int), 0 < i →
      ∀ L, wrapLoopF t d fuel i = some L → ∀ l ∈ L, l.length ≤ 82 := by
  intro fuel
  induction fuel with
  | zero =>
    intro i _ L hL
    simp [wrapLoopF] at hL
  | succ fuel ih =>
    intro i hi L hL
    rw [wrapLoopF] at hL
    by_cases hlt : i < (t.length : Int)
    · rw [if_pos hlt, if_neg (by omega : ¬ i = 0)] at hL
      have hj0 : (0 : Int) ≤ min (80 + i) (t.length : Int) := by
        have h1 : (0 : Int) ≤ (t.length : Int) := by positivity
        omega
      have hchunk : (pySlice t i (min (80 + i) (t.length : Int))).length ≤ 80 := by
        have h1 := pySlice_length_le t i (min (80 + i) (t.length : Int)) (by omega) hj0
        have h2 : min (80 + i) (t.length : Int) - i ≤ 80 := by omega
        omega
      by_cases hz : pySlice t i (min (80 + i) (t.length : Int)) = []
      · rw [if_pos hz] at hL
        exact ih (i + 80) (by omega) L hL
      · rw [if_neg hz] at hL
        by_cases hm : pySlice (pySlice t i (min (80 + i) (t.length : Int))) (-2)
            ((pySlice t i (min (80 + i) (t.length : Int))).length : Int) = "\\n".data
        · rw [if_pos hm] at hL
          cases hrec : wrapLoopF t d fuel (i + 80) with
          | none => rw [hrec] at hL; cases hL
          | some L' =>
            rw [hrec] at hL
            simp only [Option.map_some', Option.some.injEq] at hL
            subst hL
            intro l hl
            rcases List.mem_cons.mp hl with h | h
            · subst h
              have hcut : (pySlice (pySlice t i (min (80 + i) (t.length : Int))) 0
                    (-2)).length
                  = (pySlice t i (min (80 + i) (t.length : Int))).length - 2 := by
                have := pySlice_zero_neg_length
                  (pySlice t i (min (80 + i) (t.length : Int))) 2 (by omega)
                simpa using this
              simp only [List.length_cons, List.length_append, List.length_nil, hcut]
              omega
            · exact ih (i + 80) (by omega) L' hrec l h
        · rw [if_neg hm] at hL
          cases hrec : wrapLoopF t d fuel (i + 80) with
          | none => rw [hrec] at hL; cases hL
          | some L' =>
            rw [hrec] at hL
            simp only [Option.map_some', Option.some.injEq] at hL
            subst hL
            intro l hl
            rcases List.mem_cons.mp hl with h | h
            · subst h
              simp only [List.length_cons, List.length_append, List.length_nil]
              omega
            · exact ih (i + 80) (by omega) L' hrec l h
    · rw [if_neg hlt] at hL
      simp only [Option.some.injEq] at hL
      subst hL
      intro l hl
      cases hl

theorem mlbRawLines_nil (d : Nat) : mlbRawLines [] d = some [] := by
  rw [mlbRawLines,
    show ([] : Str).length + d + 2 = (([] : Str).length + d + 1) + 1 from rfl,
    wrapLoopF]
  simp

theorem mlbRawLines_eq (t : Str) (d : Nat) (hpos : 0 < t.length) :
    mlbRawLines t d
      = (wrapLoopF t d (t.length + d + 1) (80 - (d : Int))).map
          (fun ls =>
            ('"' :: (List.replicate d ' '
              ++ pySlice t 0 (min (80 : Int) (t.length : Int) - (d : Int)) ++ ['"'])) :: ls) := by
  rw [mlbRawLines,
    show t.length + d + 2 = (t.length + d + 1) + 1 from rfl,
    wrapLoopF, if_pos (by exact_mod_cast hpos : (0 : Int) < (t.length : Int)), if_pos rfl]
  norm_num

theorem firstChunk_length (t : Str) (d : Nat) (hd80 : d < 80) (hd : d ≤ t.length) :
    (pySlice t 0 (min (80 : Int) (t.length : Int) - (d : Int))).length
      = min 80 t.length - d := by
  have hmin : min (80 : Int) (t.length : Int) = ((min 80 t.length : Nat) : Int) := by
    omega
  have hdm : d ≤ min 80 t.length := le_min (by omega) hd
  have hcast : min (80 : Int) (t.length : Int) - (d : Int)
      = ((min 80 t.length - d : Nat) : Int) := by omega
  rw [hcast]
  have := pySlice_length t 0 (min 80 t.length - d) (by omega)
    (by have := min_le_right 80 t.length; omega)
  simpa using this

theorem mlbRawLines_bound (t : Str) (d : Nat) (hd80 : d < 80) (hd : d ≤ t.length) :
    ∀ L, mlbRawLines t d = some L → ∀ l ∈ L, l.length ≤ 82 := by
  intro L hL l hl
  rcases Nat.eq_zero_or_pos t.length with h0 | hpos
  · have ht : t = [] := List.length_eq_zero.mp h0
    rw [ht, mlbRawLines_nil] at hL
    simp only [Option.some.injEq] at hL
    subst hL
    cases hl
  · rw [mlbRawLines_eq t d hpos] at hL
    cases hrec : wrapLoopF t d (t.length + d + 1) (80 - (d : Int)) with
    | none => rw [hrec] at hL; cases hL
    | some L' =>
      rw [hrec] at hL
      simp only [Option.map_some', Option.some.injEq] at hL
      subst hL
      rcases List.mem_cons.mp hl with h | h
      · subst h
        have h1 := firstChunk_length t d hd80 hd
        have h2 := min_le_left 80 t.length
        simp only [List.length_cons, List.length_append, List.length_replicate,
          List.length_nil, h1]
        omega
      · exact wrapLoopF_bound t d (t.length + d + 1) (80 - (d : Int)) (by omega) L' hrec l h

theorem mlbLines_inv (t : Str) (d : Nat) (L : List Str) (h : mlbLines t d = some L) :
    ∃ lines last, mlbRawLines t d = some lines ∧ lines.getLast? = some last ∧
      L = lines.dropLast ++ [pySlice last 0 (-1) ++ "\\\\n\"".data] := by
  rw [mlbLines] at h
  cases hraw : mlbRawLines t d with
  | none => rw [hraw] at h; cases h
  | some lines =>
    rw [hraw] at h
    dsimp only at h
    cases hlast : lines.getLast? with
    | none => rw [hlast] at h; cases h
    | some last =>
      rw [hlast] at h
      dsimp only at h
      exact ⟨lines, last, rfl, hlast, by simpa using h.symm⟩

theorem mlbLines_bound (t : Str) (d : Nat) (hd80 : d < 80) (hd : d ≤ t.length) (L : List Str)
    (hL : mlbLines t d = some L) : ∀ l ∈ L, l.length ≤ 85 := by
  intro l hl
  obtain ⟨lines, last, hraw, hlast, hLeq⟩ := mlbLines_inv t d L hL
  rw [hLeq] at hl
  rcases List.mem_append.mp hl with h | h
  · have hmem : l ∈ lines := List.dropLast_subset _ h
    have := mlbRawLines_bound t d hd80 hd lines hraw l hmem
    omega
  · have hle : l = pySlice last 0 (-1) ++ "\\\\n\"".data := by simpa using h
    have hmem : last ∈ lines := List.mem_of_mem_getLast? hlast
    have h82 : last.length ≤ 82 := mlbRawLines_bound t d hd80 hd lines hraw last hmem
    have hcut : (pySlice last 0 (-1)).length = last.length - 1 := by
      have := pySlice_zero_neg_length last 1 (by omega)
      simpa using this
    rw [hle]
    simp only [List.length_append, hcut, List.length_cons, List.length_nil,
      String.data]
    omega

theorem wrapLoopF_total (t : Str) (d : Nat) :
    ∀ (fuel : Nat) (i : Int), 0 < i → (t.length : Int) ≤ i + 80 * fuel →
      wrapLoopF t d (fuel + 1) i ≠ none := by
  intro fuel
  induction fuel with
  | zero =>
    intro i hi hle
    rw [wrapLoopF, if_neg (by omega : ¬ i < (t.length : Int))]
    simp
  | succ fuel ih =>
    intro i hi hle
    rw [wrapLoopF]
    by_cases hlt : i < (t.length : Int)
    · rw [if_pos hlt, if_neg (by omega : ¬ i = 0)]
      have hrec := ih (i + 80) (by omega) (by omega)
      by_cases hz : pySlice t i (min (80 + i) (t.length : Int)) = []
      · rw [if_pos hz]
        exact hrec
      · rw [if_neg hz]
        by_cases hm : pySlice (pySlice t i (min (80 + i) (t.length : Int))) (-2)
            ((pySlice t i (min (80 + i) (t.length : Int))).length : Int) = "\\n".data
        · rw [if_pos hm]
          cases hr : wrapLoopF t d (fuel + 1) (i + 80) with
          | none => exact absurd hr hrec
          | some L => simp
        · rw [if_neg hm]
          cases hr : wrapLoopF t d (fuel + 1) (i + 80) with
          | none => exact absurd hr hrec
          | some L => simp
    · rw [if_neg hlt]
      simp


/-! ## The recorded indentation depth (C2) -/

theorem fragLoop_fst (frags : List Str) :
    ∀ (d : Nat) (cr : List Str),
      (fragLoop d cr frags).map Prod.fst
        = if d = 0 then firstDepth (frags.filter (fun s => check_punct s)) else some d := by
  induction frags with
  | nil =>
    intro d cr
    by_cases hd : d = 0 <;> simp [fragLoop, firstDepth, hd]
  | cons s rest ih =>
    intro d cr
    by_cases hp : check_punct s
    · by_cases hd : d = 0
      · subst hd
        rw [fragLoop, if_pos hp, if_pos rfl]
        cases hg : get_indentation_depth s with
        | none => simp [List.filter_cons, hp, firstDepth, hg]
        | some dv =>
          rw [ih dv cr]
          by_cases hdv : dv = 0 <;>
            simp [List.filter_cons, hp, firstDepth, hg, hdv]
      · rw [fragLoop, if_pos hp, if_neg hd, ih d cr]
        simp [List.filter_cons, hp, hd]
    · rw [fragLoop, if_neg hp, ih d (s :: cr)]
      simp [List.filter_cons, hp]

theorem firstDepth_append (xs ys : List Str) :
    firstDepth (xs ++ ys)
      = (firstDepth xs).bind (fun a => if a = 0 then firstDepth ys else some a) := by
  induction xs with
  | nil => simp [firstDepth]
  | cons f xs ih =>
    rw [List.cons_append, firstDepth, firstDepth]
    cases hg : get_indentation_depth f with
    | none => simp
    | some d =>
      by_cases hd : d = 0
      · simp [hd, ih]
      · simp [hd]

theorem foldl_lineStep_fst (rb : List Str) :
    ∀ (d : Nat) (mbc : List Str),
      (List.foldlM lineStep (d, mbc) rb).map Prod.fst
        = if d = 0 then firstDepth (qualFrags rb) else some d := by
  induction rb with
  | nil =>
    intro d mbc
    by_cases hd : d = 0 <;> simp [qualFrags, firstDepth, hd, pure]
  | cons g rb ih =>
    intro d mbc
    rw [List.foldlM_cons]
    by_cases hq : lineQualifies g
    · have hqf : qualFrags (g :: rb)
          = (fragsOf g).filter (fun s => check_punct s) ++ qualFrags rb := by
        simp [qualFrags, List.filter_cons, hq]
      rw [hqf, firstDepth_append]
      have hfst := fragLoop_fst (fragsOf g) d []
      cases hfl : fragLoop d [] (fragsOf g) with
      | none =>
        rw [hfl] at hfst
        have hls : lineStep (d, mbc) g = none := by
          rw [lineStep, if_pos hq, hfl]
        rw [hls]
        simp only [Option.map_none'] at hfst
        simp only [Option.bind_eq_bind, Option.none_bind, Option.map_none']
        by_cases hd : d = 0
        · rw [if_pos hd] at hfst ⊢
          rw [← hfst]
          simp
        · rw [if_neg hd] at hfst
          simp at hfst
      | some pr =>
        rw [hfl] at hfst
        obtain ⟨d', m⟩ := pr
        simp only [Option.map_some'] at hfst
        have hls : lineStep (d, mbc) g
            = some (d', if (if pySlice m (-3) m.length = "\\n".data
                then pySlice m (-3) m.length else m) = []
              then mbc else mbc ++ [(if pySlice m (-3) m.length = "\\n".data
                then pySlice m (-3) m.length else m)]) := by
          rw [lineStep, if_pos hq, hfl]
        rw [hls]
        simp only [Option.bind_eq_bind, Option.some_bind]
        rw [ih d' _]
        by_cases hd : d = 0
        · rw [if_pos hd] at hfst ⊢
          rw [← hfst]
          simp
        · rw [if_neg hd] at hfst ⊢
          have hd' : d' = d := by simpa using hfst
          rw [hd', if_neg hd]
    · have hls : lineStep (d, mbc) g = some (d, mbc) := by
        rw [lineStep, if_neg hq]
      have hqf : qualFrags (g :: rb) = qualFrags rb := by
        simp [qualFrags, List.filter_cons, hq]
      rw [hls, hqf]
      simp only [Option.bind_eq_bind, Option.some_bind]
      exact ih d mbc

/-! ## Claim theorems -/

/-- C1, counterexample: the multi-line rewrite is not format-stable.  On
the canonical block `exampleBlock`, one identity-backend pass yields
`exB1`, but re-parsing `exB1` and rewriting again does not reproduce it
byte for byte: the substitution only replaces the `msgstr "..."` token,
leaving the previously emitted continuation lines in place. -/
theorem spec2_c1_counterexample :
    rewriteOnce idBackend exampleBlock = some exB1 ∧
    rewriteOnce idBackend exB1 ≠ some exB1 :=
  ⟨by decide, by decide⟩

/-- C1, amended: under the identity backend, re-parsing the rewritten
block and rewriting again reproduces the first output with the emitted
continuation lines appended once more (the old lines stay behind the new
`msgstr` text), so the result grows by a non-empty tail instead of being
byte-identical. -/
theorem spec2_c1_amended :
    rewriteOnce idBackend exampleBlock = some exB1 ∧
    rewriteOnce idBackend exB1 = some (exB1 ++ exTail) ∧ exTail ≠ [] :=
  ⟨by decide, by decide, by decide⟩

/-- C2, counterexample: on `exampleBlock` the first discarded
pure-punctuation fragment is four spaces and a quote (length 5), yet the
recorded indentation depth is 4, not the fragment's length. -/
theorem spec2_c2_counterexample :
    (qualFrags (get_regex_block exampleBlock)).head? = some ("    \"".data) ∧
    ("    \"".data).length = 5 ∧
    (get_content (get_regex_block exampleBlock)).map Prod.snd = some 4 :=
  ⟨by decide, by decide, by decide⟩

/-- C2, amended: the recorded indentation depth is the value
`get_indentation_depth` computes for the first discarded fragment for
which that value is non-zero — the fragment's length plus one, or minus
one when it ends in a quote character — not the fragment's length; a
recorded zero stays falsy and is recomputed from later fragments; and
the depth defaults to 0 when no discarded fragment is ever seen. -/
theorem spec2_c2_amended (rb : List Str) (c : Str) (d : Nat)
    (h : get_content rb = some (c, d)) :
    firstDepth (qualFrags rb) = some d ∧ (qualFrags rb = [] → d = 0) := by
  have hf := foldl_lineStep_fst rb 0 []
  rw [if_pos rfl] at hf
  unfold get_content at h
  cases hfold : List.foldlM lineStep ((0 : Nat), ([] : List Str)) rb with
  | none => rw [hfold] at h; cases h
  | some pr =>
    obtain ⟨d0, mbc⟩ := pr
    rw [hfold] at h hf
    simp only [Option.map_some'] at hf
    have hd0 : d0 = d := by
      have := h
      simp only [Option.some.injEq, Prod.mk.injEq] at this
      exact this.2
    rw [hd0] at hf
    refine ⟨hf.symm, fun hq => ?_⟩
    rw [hq] at hf
    have : some d = some 0 := by rw [hf]; rfl
    simpa using this

/-- C2, amended, witness at the canonical block. -/
theorem spec2_c2_amended_witness :
    firstDepth (qualFrags (get_regex_block exampleBlock)) = some 4 ∧
    (qualFrags (get_regex_block exampleBlock) = [] → 4 = 0) :=
  spec2_c2_amended (get_regex_block exampleBlock)
    ("Hello there friend".data ++ "\\n".data) 4 (by decide)

/-- C3, counterexample: three evaluations of the emitted line lists
(each line is quote, content, quote, so quoted width is length minus 2).
At depth 4 with a 156-character translated text the lines have quoted
widths 80 and 83: the first exceeds 80 − 4 = 76 and the non-first, last
line exceeds 80 (the terminal-marker rewrite adds a net two characters).
At depth 100 — reachable, since the parser's heuristic extracts depth
100 from a 100-space punctuation fragment, as the last conjunct shows —
a 200-character text yields a first line of quoted width 280.  At depth
79 with a 78-character text (depth exceeding the translated length) the
first line has quoted width 156.  So neither bound of the claim holds,
and no fixed bound holds at all once the depth reaches 80 or exceeds the
translated length. -/
theorem spec2_c3_counterexample :
    (mlbLines (List.replicate 156 'a') 4).map (fun L => L.map List.length)
        = some [82, 85] ∧
    (mlbLines (List.replicate 200 'a') 100).map (fun L => L.map List.length)
        = some [282, 82, 65] ∧
    (mlbLines (List.replicate 78 'a') 79).map (fun L => L.map List.length)
        = some [158, 82] ∧
    get_indentation_depth (List.replicate 100 ' ' ++ ['"']) = some 100 :=
  ⟨by decide, by decide, by decide, by decide⟩

/-- C3, amended: for indentation depths below 80 that are at most the
translated length — the counterexample shows both provisos necessary,
with reachable quoted widths of 280 at depth 100 and 156 at depth 79
over 78 characters — every wrapped line before the terminal-marker
rewrite has quoted width at most 80 (list length at most 82 with its two
quotes); after the terminal-marker rewrite every line has quoted width
at most 83 (list length at most 85); and the first line is the indent
followed by a chunk of at most 80 − depth characters, so the claim's
first-line bound holds for the chunk beyond the indent, not for the full
quoted content. -/
theorem spec2_c3_amended (t : Str) (d : Nat) (hd80 : d < 80) (hdlen : d ≤ t.length) :
    (∀ L, mlbRawLines t d = some L → ∀ l ∈ L, l.length ≤ 82) ∧
    (∀ L, mlbLines t d = some L → ∀ l ∈ L, l.length ≤ 85) ∧
    (∀ l ls, mlbRawLines t d = some (l :: ls) →
      ∃ chunk, l = '"' :: (List.replicate d ' ' ++ chunk ++ ['"'])
        ∧ chunk.length ≤ 80 - d) := by
  refine ⟨fun L hL => mlbRawLines_bound t d hd80 hdlen L hL,
    fun L hL => mlbLines_bound t d hd80 hdlen L hL, ?_⟩
  intro l ls hcons
  rcases Nat.eq_zero_or_pos t.length with h0 | hpos
  · have ht : t = [] := List.length_eq_zero.mp h0
    rw [ht, mlbRawLines_nil] at hcons
    cases hcons
  · rw [mlbRawLines_eq t d hpos] at hcons
    cases hrec : wrapLoopF t d (t.length + d + 1) (80 - (d : Int)) with
    | none => rw [hrec] at hcons; cases hcons
    | some L' =>
      rw [hrec] at hcons
      simp only [Option.map_some', Option.some.injEq, List.cons.injEq] at hcons
      refine ⟨pySlice t 0 (min (80 : Int) (t.length : Int) - (d : Int)), hcons.1.symm, ?_⟩
      rw [firstChunk_length t d hd80 hdlen]
      have := min_le_left 80 t.length
      omega

/-- C3, amended, witness at the first counterexample input. -/
theorem spec2_c3_amended_witness :
    (∀ L, mlbRawLines (List.replicate 156 'a') 4 = some L → ∀ l ∈ L, l.length ≤ 82) ∧
    (∀ L, mlbLines (List.replicate 156 'a') 4 = some L → ∀ l ∈ L, l.length ≤ 85) ∧
    (∀ l ls, mlbRawLines (List.replicate 156 'a') 4 = some (l :: ls) →
      ∃ chunk, l = '"' :: (List.replicate 4 ' ' ++ chunk ++ ['"'])
        ∧ chunk.length ≤ 80 - 4) :=
  spec2_c3_amended (List.replicate 156 'a') 4 (by omega) (by simp)

/-- C4: the rewriter discards exactly the last two characters of the
backend's raw result, unconditionally — the slice of `raw[:-2]` on
`s ++ [x, y]` is `s`, and the whole rewritten block is independent of
those two trailing characters, so they never reach any emitted line. -/
theorem spec2_c4 (backend1 backend2 : Str → Option Str) (content : Str) (depth : Nat)
    (block s : Str) (x y x' y' : Char)
    (h1 : backend1 content = some (s ++ [x, y]))
    (h2 : backend2 content = some (s ++ [x', y'])) :
    pySlice (s ++ [x, y]) 0 (-2) = s ∧
    translate_multi_line_block backend1 content depth block
      = translate_multi_line_block backend2 content depth block := by
  refine ⟨pySlice_dropLast2 s x y, ?_⟩
  unfold translate_multi_line_block
  rw [h1, h2]
  simp only [Option.bind_eq_bind, Option.some_bind,
    pySlice_dropLast2]

/-- C4, witness: two backends whose results differ only in the trailing
two characters produce the same rewritten block. -/
theorem spec2_c4_witness :
    pySlice ("hi".data ++ ['A', 'B']) 0 (-2) = "hi".data ∧
    translate_multi_line_block (fun _ => some ("hi".data ++ ['A', 'B']))
        ("q".data) 0 ("msgstr \"\"".data)
      = translate_multi_line_block (fun _ => some ("hi".data ++ ['C', 'D']))
        ("q".data) 0 ("msgstr \"\"".data) :=
  spec2_c4 (fun _ => some ("hi".data ++ ['A', 'B'])) (fun _ => some ("hi".data ++ ['C', 'D']))
    ("q".data) 0 ("msgstr \"\"".data) ("hi".data) 'A' 'B' 'C' 'D' rfl rfl

/-- C5: evaluation at the failing input.  The cleaned fragment of
`exampleBlock` ends in the two-character escaped-newline marker, and —
contrary to the specified stripping — the extracted content still ends
with it: the source compares the three-character slice `cleaned[-3:]`
with the two-character marker (false for every fragment of length at
least three) and, on the rare match, keeps the slice instead of
dropping it. -/
theorem spec2_c5_eval :
    get_content (get_regex_block exampleBlock)
      = some ("Hello there friend".data ++ "\\n".data, 4) := by decide

/-- C6: whenever the rewriter's line list is produced — at any
indentation depth — its last line ends with the two-character
escaped-newline sequence (backslash, `n`) immediately before its closing
quote, regardless of where the chunking landed. -/
theorem spec2_c6 (t : Str) (d : Nat) (L : List Str) (h : mlbLines t d = some L) :
    ∃ l p, L.getLast? = some l ∧ l = p ++ "\\n\"".data := by
  obtain ⟨lines, last, -, -, hL⟩ := mlbLines_inv t d L h
  refine ⟨pySlice last 0 (-1) ++ "\\\\n\"".data, pySlice last 0 (-1) ++ ['\\'], ?_, ?_⟩
  · rw [hL]
    exact List.getLast?_concat _
  · rw [List.append_assoc]
    rfl

/-- C6, witness on a three-character translated text. -/
theorem spec2_c6_witness :
    ∃ l p, (["\"abc\\\\n\"".data] : List Str).getLast? = some l ∧ l = p ++ "\\n\"".data :=
  spec2_c6 ("abc".data) 0 ["\"abc\\\\n\"".data] (by decide)

/-- C7: a single-line block whose first `msgstr` group is non-empty is
returned unchanged by `translate_block`, for every backend — so the
translation backend is never consulted. -/
theorem spec2_c7 (backend : Str → Option Str) (block : Str) (msgid : List Str)
    (m : Str) (ms : List Str)
    (h : findallQ ("msgstr \"".data) block = m :: ms) (hm : m ≠ []) :
    translate_block backend block msgid = some block := by
  unfold translate_block
  rw [h]
  simp [List.headD, hm]

/-- C7, witness: an already-translated block is returned unchanged even
under a backend that always fails. -/
theorem spec2_c7_witness :
    translate_block (fun _ => none) ("msgstr \"x\"".data) [] = some ("msgstr \"x\"".data) :=
  spec2_c7 (fun _ => none) ("msgstr \"x\"".data) [] ("x".data) [] (by decide) (by decide)

theorem processBlocks_none (backend : Str → Option Str) (block : Str)
    (hne : block ≠ []) (hfail : processBlock backend block = none) :
    ∀ l : List Str, block ∈ l → processBlocks backend l = none := by
  intro l
  induction l with
  | nil => intro h; cases h
  | cons b rest ih =>
    intro hmem
    rw [processBlocks]
    by_cases hb : b = []
    · rw [if_pos hb]
      rcases List.mem_cons.mp hmem with h | h
      · exact absurd (h.trans hb) hne
      · exact ih h
    · rw [if_neg hb]
      rcases List.mem_cons.mp hmem with h | h
      · rw [← h, hfail]
        rfl
      · cases hpb : processBlock backend b with
        | none => rfl
        | some r =>
          simp only [Option.bind_eq_bind, Option.some_bind, ih h, Option.none_bind]

/-- C8: if processing any non-empty block of the catalog fails (in
particular because the translation backend raises there), the whole run
returns no output text — the write happens only after every block has
succeeded — and the file on disk is left exactly as it was. -/
theorem spec2_c8 (backend : Str → Option Str) (fileContent block : Str)
    (hmem : block ∈ pySplitOn fileContent ("\n\n".data))
    (hne : block ≠ [])
    (hfail : processBlock backend block = none) :
    translate_locale_path backend fileContent = none ∧
    translate_locale_path_disk backend fileContent = fileContent := by
  have hpb := processBlocks_none backend block hne hfail _ hmem
  constructor
  · rw [translate_locale_path, hpb]
    rfl
  · rw [translate_locale_path_disk, translate_locale_path, hpb]
    rfl

/-- C8, witness: a one-block catalog whose backend always raises is left
un-mutated. -/
theorem spec2_c8_witness :
    translate_locale_path (fun _ => none) ("msgid \"hi\"\nmsgstr \"\"".data) = none ∧
    translate_locale_path_disk (fun _ => none) ("msgid \"hi\"\nmsgstr \"\"".data)
      = "msgid \"hi\"\nmsgstr \"\"".data :=
  spec2_c8 (fun _ => none) ("msgid \"hi\"\nmsgstr \"\"".data)
    ("msgid \"hi\"\nmsgstr \"\"".data) (by decide) (by decide) (by decide)

/-- C9: binding a translator to a language code happens in the
constructor — it fails with the unsupported-language error exactly when
the backend does not support the code — and a successfully constructed
translator carries the backend's bare per-call translation function, so
no per-call operation can raise that construction-time error. -/
theorem spec2_c9 (b : Backend) (lang : Str) :
    (PoFileTranslator.init b lang
        = Except.error (TranslatorError.languageNotSupported lang)
      ↔ b.supported lang = false) ∧
    (∀ t, PoFileTranslator.init b lang = Except.ok t →
      t.lang_code = lang ∧ t.translator = b.translateText lang) := by
  unfold PoFileTranslator.init newTranslator
  by_cases hs : b.supported lang = true
  · rw [if_pos hs]
    refine ⟨⟨fun h => ?_, fun h => ?_⟩, fun t ht => ?_⟩
    · cases h
    · rw [h] at hs; cases hs
    · cases ht
      exact ⟨rfl, rfl⟩
  · rw [if_neg hs]
    refine ⟨⟨fun _ => ?_, fun _ => rfl⟩, fun t ht => ?_⟩
    · simpa using hs
    · cases ht

/-- C9, witness: a demonstration backend supporting only `fr` — an
unsupported code fails at construction, and a constructed translator's
per-call function is the backend's translation function. -/
theorem spec2_c9_witness :
    (PoFileTranslator.init demoBackend ("xx".data)
        = Except.error (TranslatorError.languageNotSupported ("xx".data))) ∧
    ((⟨"fr".data, demoBackend.translateText ("fr".data)⟩ : PoFileTranslator).lang_code
        = "fr".data
      ∧ (⟨"fr".data, demoBackend.translateText ("fr".data)⟩ : PoFileTranslator).translator
        = demoBackend.translateText ("fr".data)) :=
  ⟨(spec2_c9 demoBackend ("xx".data)).1.mpr (by decide),
   (spec2_c9 demoBackend ("fr".data)).2
     ⟨"fr".data, demoBackend.translateText ("fr".data)⟩ rfl⟩

theorem mlbLines_none_inv (t : Str) (d : Nat) (h : mlbLines t d = none) :
    mlbRawLines t d = none ∨ mlbRawLines t d = some [] := by
  rw [mlbLines] at h
  cases hraw : mlbRawLines t d with
  | none => exact Or.inl rfl
  | some lines =>
    rw [hraw] at h
    dsimp only at h
    cases hlast : lines.getLast? with
    | none => exact Or.inr (by rw [List.getLast?_eq_none_iff.mp hlast])
    | some last =>
      rw [hlast] at h
      cases h

/-- C10: a backend result of length at most 2 leaves nothing after the
unconditional two-character strip, the loop emits no lines, and
`lines[-1]` fails — `translate_multi_line_block` returns no block, at
every indentation depth.  For a result of length at least 3 the first
iteration always emits a line (the line list is never empty), and at
every depth below 80 the loop also terminates, so the final-line
rewrite is well-defined. -/
theorem spec2_c10 :
    (∀ (backend : Str → Option Str) (content : Str) (depth : Nat) (block raw : Str),
      backend content = some raw → raw.length ≤ 2 →
      translate_multi_line_block backend content depth block = none) ∧
    (∀ (raw : Str) (d : Nat), 3 ≤ raw.length →
      mlbRawLines (pySlice raw 0 (-2)) d ≠ some [] ∧
      (d < 80 → mlbLines (pySlice raw 0 (-2)) d ≠ none)) := by
  constructor
  · intro backend content depth block raw hb hlen
    have htr : pySlice raw 0 (-2) = [] := by
      rw [pySlice_zero_neg raw (-2) (by omega)]
      have : ((raw.length : Int) + (-2)).toNat = 0 := by omega
      rw [this]
      exact List.take_zero raw
    have hml : mlbLines ([] : Str) depth = none := by
      rw [mlbLines, mlbRawLines_nil]
      rfl
    unfold translate_multi_line_block
    rw [hb]
    simp only [Option.bind_eq_bind, Option.some_bind]
    rw [htr, hml]
    rfl
  · intro raw d hlen
    have htr : (pySlice raw 0 (-2)).length = raw.length - 2 := by
      have := pySlice_zero_neg_length raw 2 (by omega)
      simpa using this
    have hpos : 0 < (pySlice raw 0 (-2)).length := by omega
    constructor
    · rw [mlbRawLines_eq _ d hpos]
      cases hrec : wrapLoopF (pySlice raw 0 (-2)) d
          ((pySlice raw 0 (-2)).length + d + 1) (80 - (d : Int)) with
      | none => simp
      | some L' => simp
    · intro hd80 hnone
      have htot := wrapLoopF_total (pySlice raw 0 (-2)) d
        ((pySlice raw 0 (-2)).length + d) (80 - (d : Int)) (by omega)
        (by push_cast; omega)
      rcases mlbLines_none_inv _ d hnone with hr | hr
      · rw [mlbRawLines_eq _ d hpos] at hr
        cases hrec : wrapLoopF (pySlice raw 0 (-2)) d
            ((pySlice raw 0 (-2)).length + d + 1) (80 - (d : Int)) with
        | none => exact htot hrec
        | some L' => rw [hrec] at hr; cases hr
      · rw [mlbRawLines_eq _ d hpos] at hr
        cases hrec : wrapLoopF (pySlice raw 0 (-2)) d
            ((pySlice raw 0 (-2)).length + d + 1) (80 - (d : Int)) with
        | none => rw [hrec] at hr; cases hr
        | some L' => rw [hrec] at hr; simp at hr

/-- C10, witness: a two-character backend result makes the rewrite fail,
and a five-character one emits a line. -/
theorem spec2_c10_witness :
    translate_multi_line_block (fun _ => some ['A', 'B']) ("xy".data) 4
        ("msgstr \"\"".data) = none ∧
    (mlbRawLines (pySlice ("abcde".data) 0 (-2)) 4 ≠ some [] ∧
      mlbLines (pySlice ("abcde".data) 0 (-2)) 4 ≠ none) :=
  ⟨spec2_c10.1 (fun _ => some ['A', 'B']) ("xy".data) 4 ("msgstr \"\"".data)
      ['A', 'B'] rfl (by decide),
   (spec2_c10.2 ("abcde".data) 4 (by decide)).1,
   (spec2_c10.2 ("abcde".data) 4 (by decide)).2 (by omega)⟩
